import Mathlib

/-!
# Verification development for `teleop_record_replay_sdk.py`

A shallow embedding of the leader/follower teleoperation recorder.  Python
strings are modelled as their sequences of Unicode code points (`Name`), the
records directory as an association list from file name to the stored 2-D
integer array, and the global mutable state of the script as one `SysState`
record threaded through the command handlers.  Operations that can raise an
uncaught Python exception return `Option`, with `none` for the exception.

Python's `sorted` on strings orders by code points; since that order is total
and antisymmetric, the sorted list is unique, so we model `sorted` by
insertion sort over the same order.

Time is modelled by counting `time.sleep(DT)` calls (`sleeps`), and the
follower serial port by the list of issued frame writes (`writes`).  Reads
from the leader bus are driven by an oracle giving, per joint, the triple
`(value, comm_result, error)` that `read2ByteTxRx` returns (0 = COMM_SUCCESS).
-/

/-- A Python string, as its sequence of Unicode code points. -/
abbrev Name := List Nat

/-- Embed a string literal as its code-point sequence. -/
def codes (s : String) : Name := s.data.map Char.toNat

/-- Python `s.startswith(pre)`. -/
def startsWithL (s pre : Name) : Bool :=
  match pre, s with
  | [], _ => true
  | _ :: _, [] => false
  | b :: bs, a :: as => a == b && startsWithL as bs

/-- Python `s.endswith(suf)`. -/
def endsWithL (s suf : Name) : Bool := startsWithL s.reverse suf.reverse

/-- Python `<` on strings: strict lexicographic order on code points. -/
def lexLt : Name → Name → Bool
  | [], [] => false
  | [], _ :: _ => true
  | _ :: _, [] => false
  | a :: as, b :: bs => a < b || (a == b && lexLt as bs)

/-- The corresponding reflexive order (`a ≤ b ↔ ¬ b < a`). -/
def lexLe (s t : Name) : Bool := !(lexLt t s)

/-- Python `sorted` on a list of strings (ascending code-point order). -/
def pySort (l : List Name) : List Name :=
  List.insertionSort (fun a b => lexLe a b = true) l

/-! ## Configuration constants (lines 12-30 of the source) -/

def RECORD_DIR : Name := codes "records"

def JOINT_IDS : List Nat := [1, 2, 3, 4, 5, 6]

def NUM_JOINTS : Nat := 6

/-- Python `os.path.join(d, f)` for the records directory. -/
def pathJoin (d f : Name) : Name := d ++ codes "/" ++ f

/-- Python `os.path.basename(p)`: the part after the last `/` (code point 47). -/
def basename (p : Name) : Name := (p.reverse.takeWhile (fun c => !(c == 47))).reverse

/-! ## Integers and arrays -/

/-- Cast to numpy `int32`: wrap modulo `2^32` into the signed range. -/
def int32 (z : Int) : Int := (z + 2 ^ 31) % 2 ^ 32 - 2 ^ 31

/-- One sampled joint frame (a row of the stored array). -/
abbrev Frame := List Int

/-- An ordered sequence of frames (the stored 2-D array). -/
abbrev Traj := List Frame

/-- Models `np.array(arr, dtype=np.int32)`. -/
def toInt32Arr (arr : Traj) : Traj := arr.map (fun fr => fr.map int32)

/-! ## The records directory -/

/-- The records directory: file name ↦ stored array (every file on disk is a
    valid `.npy` written by `np.save`). -/
abbrev Fs := List (Name × Traj)

/-- Models `os.listdir(RECORD_DIR)` (the sort happens at the call sites). -/
def listdir (fs : Fs) : List Name := fs.map (fun kv => kv.1)

/-- Create-or-overwrite a directory entry. -/
def fsInsert (fs : Fs) (key : Name) (arr : Traj) : Fs :=
  (key, arr) :: fs.filter (fun kv => !(kv.1 == key))

/-- Models `np.save(p, arr)`: all paths used by the script live under `records/`,
    so the file is stored under its basename. -/
def np_save (fs : Fs) (p : Name) (arr : Traj) : Fs := fsInsert fs (basename p) arr

/-- Models `np.load(p)`; `none` models the exception when the file does not exist. -/
def np_load (fs : Fs) (p : Name) : Option Traj := List.lookup (basename p) fs

/-- Models `os.path.exists(p)` for paths under `records/`. -/
def pathExists (fs : Fs) (p : Name) : Bool := (np_load fs p).isSome

/-! ## File-name allocation (`next_path`, lines 32-38) -/

/-- Python `f"{n:03d}"`: the decimal representation zero-padded to width 3. -/
def pad3 (n : Nat) : Name :=
  if n < 1000 then [48 + n / 100, 48 + n / 10 % 10, 48 + n % 10]
  else codes (Nat.repr n)

/-- The file name `f"raw_{idx:03d}.npy"`. -/
def rawName (idx : Nat) : Name := codes "raw_" ++ pad3 idx ++ codes ".npy"

/-- Python `int(s)` on a decimal-digit string; `none` models the
    `ValueError` raised on anything else. -/
def parseInt (s : Name) : Option Nat :=
  if s.isEmpty || s.any (fun c => !(48 ≤ c && c ≤ 57)) then none
  else some (s.foldl (fun a c => 10 * a + (c - 48)) 0)

/-- Models `next_path()`: sort the `raw_*.npy` entries of the directory, parse
    characters `[4:7]` of the last one, and return the path for that index
    plus one (index 0 when the filtered listing is empty). -/
def next_path (dir : List Name) : Option Name :=
  let files := pySort (dir.filter
    (fun f => startsWithL f (codes "raw_") && endsWithL f (codes ".npy")))
  match files.getLast? with
  | none => some (pathJoin RECORD_DIR (rawName 0))
  | some f => (parseInt ((f.drop 4).take 3)).map
      (fun n => pathJoin RECORD_DIR (rawName (n + 1)))

/-! ## Global state (lines 79-85) -/

structure SysState where
  running : Bool
  mode : Name
  recording : Bool
  buffer : Traj
  save_path : Option Name
  last_saved : Option Name
  fs : Fs
  status : Name
  logs : List Name
  writes : List (List (Nat × Int))
  sleeps : Nat
deriving DecidableEq, Repr

/-- The state right after module initialisation, with an empty records
    directory. -/
def initState : SysState :=
  { running := true
    mode := codes "TELEOP"
    recording := false
    buffer := []
    save_path := none
    last_saved := none
    fs := []
    status := codes "IDLE"
    logs := []
    writes := []
    sleeps := 0 }

/-! ## Bus IO (lines 61-74) -/

/-- The bus responses for one tick: per joint, the `(value, comm_result,
    error)` triple returned by `read2ByteTxRx`; 0 = COMM_SUCCESS. -/
abbrev BusReads := List (Nat × Nat × Nat)

/-- Models `read_leader()`: stores each returned position value into the `int32`
    array `q`, ignoring the `comm_result` and `error` components entirely. -/
def read_leader (inp : BusReads) : Frame := inp.map (fun t => int32 (Int.ofNat t.1))

/-- Models `write_follower(q)`: one goal-position transaction per `(id, value)` of
    `zip(JOINT_IDS, q)` (so `zip` truncates to the shorter of the two). -/
def write_follower (q : Frame) : List (Nat × Int) := JOINT_IDS.zip q

/-! ## The control loop (`robot_loop`, lines 90-105) -/

/-- One iteration of the `while running` body. -/
def robot_tick (inp : BusReads) (s : SysState) : SysState :=
  if s.mode = codes "REPLAY" then { s with sleeps := s.sleeps + 1 }
  else
    let q := read_leader inp
    let s1 := { s with writes := s.writes ++ [write_follower q] }
    let s2 := if s1.recording then { s1 with buffer := s1.buffer ++ [q] } else s1
    { s2 with sleeps := s2.sleeps + 1 }

/-- The loop itself, driven by one bus-response list per tick; it stops
    before consuming a tick iff `running` is false. -/
def robot_loop : List BusReads → SysState → SysState
  | [], s => s
  | inp :: rest, s => if s.running then robot_loop rest (robot_tick inp s) else s

/-! ## Log lines -/

def startLogLine (p : Name) : Name := codes "[RECORD] START → " ++ basename p

def savedLogLine (n : Nat) : Name :=
  codes "[RECORD] SAVED (" ++ codes (Nat.repr n) ++ codes " frames)"

def replayLogLine (p : Name) (n : Nat) : Name :=
  codes "[REPLAY] " ++ basename p ++ codes " (" ++ codes (Nat.repr n) ++ codes " frames)"

/-! ## Commands (lines 114-188) -/

/-- Models `start_record()` (lines 114-126); `none` models the `ValueError` that
    `next_path` can raise escaping the callback. -/
def start_record (s : SysState) : Option SysState :=
  if s.recording then some s
  else
    (next_path (listdir s.fs)).map (fun p =>
      { s with mode := codes "RECORD"
               recording := true
               buffer := []
               save_path := some p
               status := codes "● RECORDING"
               logs := s.logs ++ [startLogLine p] })

/-- Models `stop_record()` (lines 128-145); `none` models `np.save(None, ...)`,
    unreachable from the initial state. -/
def stop_record (s : SysState) : Option SysState :=
  if s.recording then
    let base := { s with recording := false, mode := codes "TELEOP", status := codes "IDLE" }
    if s.buffer.isEmpty then
      some { base with logs := base.logs ++ [codes "[RECORD] STOP (no frames)"], buffer := [] }
    else
      match s.save_path with
      | none => none
      | some p =>
          some { base with
            fs := np_save base.fs p (toInt32Arr s.buffer)
            last_saved := some p
            logs := base.logs ++ [savedLogLine s.buffer.length]
            buffer := [] }
  else some s

/-- The playback loop and its postlude (lines 171-177): write each frame,
    sleep one tick after each write, then return to TELEOP / IDLE. -/
def playSeq (seq : Traj) (s : SysState) : SysState :=
  let s1 := seq.foldl
    (fun st q => { st with writes := st.writes ++ [write_follower q], sleeps := st.sleeps + 1 }) s
  { s1 with mode := codes "TELEOP", status := codes "IDLE",
            logs := s1.logs ++ [codes "[REPLAY] DONE"] }

/-- The sorted full paths of the `raw_*` entries (line 155-159; note: no
    `.npy` filter here, unlike `next_path`). -/
def rawFilesSorted (fs : Fs) : List Name :=
  pySort (((listdir fs).filter (fun f => startsWithL f (codes "raw_"))).map
    (fun f => pathJoin RECORD_DIR f))

/-- Lines 165-177 of `replay()`: load the resolved target and play it. -/
def replayPlay (s : SysState) : Option SysState :=
  match s.last_saved with
  | none => none
  | some p =>
    match np_load s.fs p with
    | none => none
    | some seq =>
        some (playSeq seq
          { s with mode := codes "REPLAY"
                   status := codes "▶ REPLAY"
                   logs := s.logs ++ [replayLogLine p seq.length] })

/-- Models `replay()` (lines 147-177). -/
def replayCmd (s : SysState) : Option SysState :=
  if s.recording then
    some { s with logs := s.logs ++ [codes "[WARN] stop record before replay"] }
  else
    let needFallback : Bool :=
      match s.last_saved with
      | none => true
      | some p => !(pathExists s.fs p)
    if needFallback then
      match (rawFilesSorted s.fs).getLast? with
      | none => some { s with logs := s.logs ++ [codes "[REPLAY] no recordings"] }
      | some f => replayPlay { s with last_saved := some f }
    else replayPlay s

/-- Models `quit_all()` (lines 179-188): stop the loop (port/window teardown is
    outside the model). -/
def quit_all (s : SysState) : SysState := { s with running := false }

/-! ## Reachability at command boundaries -/

/-- States reachable from the initial state by completed commands and
    control-loop ticks. -/
inductive Reachable : SysState → Prop where
  | init : Reachable initState
  | startR {s s'} : Reachable s → start_record s = some s' → Reachable s'
  | stopR {s s'} : Reachable s → stop_record s = some s' → Reachable s'
  | replayR {s s'} : Reachable s → replayCmd s = some s' → Reachable s'
  | quitR {s} : Reachable s → Reachable (quit_all s)
  | tickR {s} (inp : BusReads) : Reachable s → Reachable (robot_tick inp s)

/-! ## One full successful recording (start, one clean tick, stop) -/

/-- Bus responses for one clean tick: every joint reads its value with
    COMM_SUCCESS. -/
def busOK (fr : List Nat) : BusReads := fr.map (fun v => (v, 0, 0))

/-- One successful recording: `start_record`, one recorded tick, `stop_record`. -/
def recordOne (fr : List Nat) (s : SysState) : Option SysState :=
  (start_record s).bind (fun s1 => stop_record (robot_tick (busOK fr) s1))

/-- Runs `n` consecutive successful recordings from the initial state. -/
def recordN (fr : List Nat) : Nat → Option SysState
  | 0 => some initState
  | n + 1 => (recordN fr n).bind (recordOne fr)

/-! ## Spec-side definition (for the refinement comparison in C1 only):
the file-name pattern `raw_###` with a three-digit zero-padded index. -/

/-- A name matching the spec's pattern `raw_###.npy`: exactly `raw_`, three
    decimal digits, `.npy`. -/
def specRawIdxName (f : Name) : Bool :=
  match f with
  | [114, 97, 119, 95, d1, d2, d3, 46, 110, 112, 121] =>
      (48 ≤ d1 && d1 ≤ 57) && (48 ≤ d2 && d2 ≤ 57) && (48 ≤ d3 && d3 ≤ 57)
  | _ => false


/-! ## Order lemmas for code-point strings -/

theorem lexLt_irrefl (l : Name) : lexLt l l = false := by
  induction l with
  | nil => rfl
  | cons a as ih => simp [lexLt, ih]

theorem lexLt_trichotomy (l m : Name) : lexLt l m = true ∨ l = m ∨ lexLt m l = true := by
  induction l generalizing m with
  | nil => cases m <;> simp [lexLt]
  | cons a as ih =>
    cases m with
    | nil => simp [lexLt]
    | cons b bs =>
      rcases Nat.lt_trichotomy a b with h | h | h
      · left; simp [lexLt, h]
      · subst h
        rcases ih bs with h2 | h2 | h2
        · left; simp [lexLt, h2]
        · right; left; rw [h2]
        · right; right; simp [lexLt, h2]
      · right; right; simp [lexLt, h]

theorem lexLt_trans {l m n : Name} (h1 : lexLt l m = true) (h2 : lexLt m n = true) :
    lexLt l n = true := by
  induction l generalizing m n with
  | nil =>
    cases n with
    | nil => cases m <;> simp [lexLt] at h2
    | cons c cs => simp [lexLt]
  | cons a as ih =>
    cases m with
    | nil => simp [lexLt] at h1
    | cons b bs =>
      cases n with
      | nil => simp [lexLt] at h2
      | cons c cs =>
        simp only [lexLt, Bool.or_eq_true, Bool.and_eq_true, beq_iff_eq,
          decide_eq_true_eq] at h1 h2 ⊢
        rcases h1 with h1 | ⟨h1e, h1r⟩
        · rcases h2 with h2 | ⟨h2e, h2r⟩
          · exact Or.inl (Nat.lt_trans h1 h2)
          · exact Or.inl (h2e ▸ h1)
        · rcases h2 with h2 | ⟨h2e, h2r⟩
          · exact Or.inl (h1e ▸ h2)
          · exact Or.inr ⟨h1e.trans h2e, ih h1r h2r⟩

theorem lexLe_refl (l : Name) : lexLe l l = true := by
  simp [lexLe, lexLt_irrefl]

theorem lexLt_asymm {l m : Name} (h : lexLt l m = true) : lexLt m l = false := by
  by_contra hc
  rw [Bool.not_eq_false] at hc
  have := lexLt_trans h hc
  simp [lexLt_irrefl] at this

theorem lexLe_total (l m : Name) : lexLe l m = true ∨ lexLe m l = true := by
  rcases lexLt_trichotomy l m with h | h | h
  · left; simp [lexLe, lexLt_asymm h]
  · left; rw [h]; exact lexLe_refl m
  · right; simp [lexLe, lexLt_asymm h]

theorem lexLe_trans {l m n : Name} (h1 : lexLe l m = true) (h2 : lexLe m n = true) :
    lexLe l n = true := by
  simp only [lexLe, Bool.not_eq_true'] at h1 h2
  simp only [lexLe, Bool.not_eq_true']
  by_contra hc
  rw [Bool.not_eq_false] at hc
  rcases lexLt_trichotomy l m with h | h | h
  · have := lexLt_trans hc h
    simp [h2] at this
  · subst h
    simp [h2] at hc
  · simp [h1] at h

theorem lexLe_antisymm {l m : Name} (h1 : lexLe l m = true) (h2 : lexLe m l = true) :
    l = m := by
  simp only [lexLe, Bool.not_eq_true'] at h1 h2
  rcases lexLt_trichotomy l m with h | h | h
  · simp [h2] at h
  · exact h
  · simp [h1] at h

instance : IsTotal Name (fun a b => lexLe a b = true) := ⟨lexLe_total⟩

instance : IsTrans Name (fun a b => lexLe a b = true) := ⟨fun _ _ _ => lexLe_trans⟩

/-- In a `lexLe`-sorted nonempty list the last element dominates every
    element. -/
theorem pairwise_le_getLast {l : List Name}
    (h : l.Pairwise (fun a b => lexLe a b = true)) (hne : l ≠ []) :
    ∀ x ∈ l, lexLe x (l.getLast hne) = true := by
  induction l with
  | nil => cases hne rfl
  | cons a as ih =>
    intro x hx
    cases as with
    | nil =>
      simp only [List.mem_singleton] at hx
      subst hx
      simp [List.getLast, lexLe_refl]
    | cons b bs =>
      rw [List.getLast_cons_cons]
      rcases List.mem_cons.1 hx with hxa | hxas
      · subst hxa
        have hdom : ∀ y ∈ b :: bs, lexLe x y = true := (List.pairwise_cons.1 h).1
        exact hdom _ (List.getLast_mem _)
      · exact ih (List.pairwise_cons.1 h).2 (by simp) _ hxas

/-- The last element of the Python-sorted list is the maximum. -/
theorem pySort_getLast_max {l : List Name} (hne : l ≠ []) :
    ∃ m, (pySort l).getLast? = some m ∧ m ∈ l ∧ ∀ x ∈ l, lexLe x m = true := by
  have hperm : (pySort l).Perm l := List.perm_insertionSort (fun a b => lexLe a b = true) l
  have hsorted : (pySort l).Pairwise (fun a b => lexLe a b = true) :=
    List.sorted_insertionSort (fun a b => lexLe a b = true) l
  have hne' : pySort l ≠ [] := by
    intro hc
    exact hne (List.Perm.eq_nil (hc ▸ hperm).symm)
  refine ⟨(pySort l).getLast hne', List.getLast?_eq_getLast _ hne', ?_, ?_⟩
  · exact hperm.mem_iff.1 (List.getLast_mem hne')
  · intro x hx
    exact pairwise_le_getLast hsorted hne' x (hperm.mem_iff.2 hx)

/-! ## File-name lemmas -/

theorem pad3_eq_digits {n : Nat} (h : n < 1000) :
    pad3 n = [48 + n / 100, 48 + n / 10 % 10, 48 + n % 10] := by
  simp [pad3, h]

theorem lexLt_append_left (x s t : Name) : lexLt (x ++ s) (x ++ t) = lexLt s t := by
  induction x with
  | nil => rfl
  | cons a as ih => simp [lexLt, ih]

theorem rawName_lt_iff {a b : Nat} (ha : a < 1000) (hb : b < 1000) :
    lexLt (rawName a) (rawName b) = true ↔ a < b := by
  unfold rawName
  rw [List.append_assoc, List.append_assoc, lexLt_append_left]
  rw [pad3_eq_digits ha, pad3_eq_digits hb]
  simp only [List.cons_append, List.nil_append, lexLt, lexLt_irrefl,
    Bool.or_eq_true, Bool.and_eq_true, beq_iff_eq, decide_eq_true_eq,
    Bool.or_false, Bool.and_false, Bool.false_eq_true, and_false, or_false]
  omega

theorem rawName_le_iff {a b : Nat} (ha : a < 1000) (hb : b < 1000) :
    lexLe (rawName a) (rawName b) = true ↔ a ≤ b := by
  simp only [lexLe, Bool.not_eq_true']
  constructor
  · intro h
    by_contra hc
    push_neg at hc
    rw [(rawName_lt_iff hb ha).2 hc] at h
    cases h
  · intro h
    by_contra hc
    rw [Bool.not_eq_false] at hc
    have := (rawName_lt_iff hb ha).1 hc
    omega

theorem rawName_inj {a b : Nat} (ha : a < 1000) (hb : b < 1000) (h : rawName a = rawName b) :
    a = b := by
  by_contra hc
  rcases Nat.lt_or_ge a b with hlt | hge
  · have := (rawName_lt_iff ha hb).2 hlt
    rw [h, lexLt_irrefl] at this
    cases this
  · have hlt : b < a := by omega
    have := (rawName_lt_iff hb ha).2 hlt
    rw [h, lexLt_irrefl] at this
    cases this

theorem parseInt_pad3 {n : Nat} (h : n < 1000) : parseInt (pad3 n) = some n := by
  rw [pad3_eq_digits h]
  have h1 : n / 100 ≤ 9 := by omega
  have h2 : n / 10 % 10 ≤ 9 := by omega
  have h3 : n % 10 ≤ 9 := by omega
  simp only [parseInt, List.isEmpty_cons, List.any_cons, List.any_nil,
    Bool.or_false, Bool.not_eq_true', Bool.and_eq_true, decide_eq_true_eq,
    Bool.false_or]
  rw [if_neg, List.foldl_cons, List.foldl_cons, List.foldl_cons, List.foldl_nil]
  · congr 1
    omega
  · simp only [Bool.or_eq_true, Bool.not_eq_true', Bool.and_eq_false_iff,
      decide_eq_false_iff_not, not_le]
    push_neg
    omega

theorem rawName_drop_take {n : Nat} (h : n < 1000) :
    ((rawName n).drop 4).take 3 = pad3 n := by
  rw [rawName, pad3_eq_digits h]
  rfl

theorem startsWithL_append (p r : Name) : startsWithL (p ++ r) p = true := by
  induction p with
  | nil => simp [startsWithL]
  | cons a as ih => simp [startsWithL, ih]

theorem endsWithL_append (l suf : Name) : endsWithL (l ++ suf) suf = true := by
  unfold endsWithL
  rw [List.reverse_append]
  exact startsWithL_append suf.reverse l.reverse

theorem rawName_filter_ok (n : Nat) :
    (startsWithL (rawName n) (codes "raw_") && endsWithL (rawName n) (codes ".npy")) = true := by
  rw [rawName]
  have h1 : codes "raw_" ++ pad3 n ++ codes ".npy" = codes "raw_" ++ (pad3 n ++ codes ".npy") := by
    rw [List.append_assoc]
  rw [h1, startsWithL_append, ← h1, endsWithL_append]
  rfl

theorem mem_pad3_digit {n c : Nat} (h : n < 1000) (hc : c ∈ pad3 n) : 48 ≤ c ∧ c ≤ 57 := by
  rw [pad3_eq_digits h] at hc
  have h1 : n / 100 ≤ 9 := by omega
  have h2 : n / 10 % 10 ≤ 9 := by omega
  have h3 : n % 10 ≤ 9 := by omega
  simp only [List.mem_cons, List.not_mem_nil, or_false] at hc
  rcases hc with rfl | rfl | rfl <;> omega

theorem slash_not_mem_rawName {n : Nat} (h : n < 1000) : 47 ∉ rawName n := by
  intro hc
  rw [rawName] at hc
  simp only [List.mem_append] at hc
  rcases hc with (hc | hc) | hc
  · revert hc; decide
  · have := mem_pad3_digit h hc
    omega
  · revert hc; decide

/-! ## Maximum of a list of indexes -/

def maxL (ds : List Nat) : Nat := ds.foldr Nat.max 0

theorem maxL_cons (a : Nat) (as : List Nat) : maxL (a :: as) = Nat.max a (maxL as) := rfl

theorem le_maxL {d : Nat} {ds : List Nat} (h : d ∈ ds) : d ≤ maxL ds := by
  induction ds with
  | nil => cases h
  | cons a as ih =>
    rw [maxL_cons]
    rcases List.mem_cons.1 h with rfl | h2
    · exact Nat.le_max_left _ _
    · exact Nat.le_trans (ih h2) (Nat.le_max_right _ _)

theorem maxL_le {d : Nat} {ds : List Nat} (h : ∀ e ∈ ds, e ≤ d) : maxL ds ≤ d := by
  induction ds with
  | nil => simp [maxL]
  | cons a as ih =>
    rw [maxL_cons]
    exact Nat.max_le.2 ⟨h a (by simp), ih (fun e he => h e (by simp [he]))⟩

theorem maxL_eq {d : Nat} {ds : List Nat} (hmem : d ∈ ds) (hdom : ∀ e ∈ ds, e ≤ d) :
    maxL ds = d :=
  Nat.le_antisymm (maxL_le hdom) (le_maxL hmem)

/-! ## What `next_path` computes on a directory of well-formed names -/

/-- On a directory whose entries are exactly `raw_DDD.npy` names with
    three-digit indexes, `next_path` returns the path for the maximum
    index plus one. -/
theorem next_path_rawNames {ds : List Nat} (hne : ds ≠ [])
    (hlt : ∀ d ∈ ds, d < 1000) :
    next_path (ds.map rawName) = some (pathJoin RECORD_DIR (rawName (maxL ds + 1))) := by
  have hfilter : (ds.map rawName).filter
      (fun f => startsWithL f (codes "raw_") && endsWithL f (codes ".npy")) = ds.map rawName := by
    apply List.filter_eq_self.2
    intro f hf
    obtain ⟨d, _, rfl⟩ := List.mem_map.1 hf
    exact rawName_filter_ok d
  have hne' : ds.map rawName ≠ [] := by
    simpa using hne
  obtain ⟨m, hlast, hmem, hmax⟩ := pySort_getLast_max hne'
  obtain ⟨d, hd, rfl⟩ := List.mem_map.1 hmem
  have hdmax : ∀ e ∈ ds, e ≤ d := by
    intro e he
    have := hmax _ (List.mem_map_of_mem rawName he)
    exact (rawName_le_iff (hlt e he) (hlt d hd)).1 this
  have hmaxL : maxL ds = d := maxL_eq hd hdmax
  unfold next_path
  simp only [hfilter, hlast, rawName_drop_take (hlt d hd), parseInt_pad3 (hlt d hd),
    Option.map_some', hmaxL]

/-! ## Basename lemmas -/

theorem takeWhile_append_all {p : Nat → Bool} {u : Name} (v : Name)
    (h : ∀ c ∈ u, p c = true) :
    (u ++ v).takeWhile p = u ++ v.takeWhile p := by
  induction u with
  | nil => simp
  | cons a as ih =>
    have ha : p a = true := h a (by simp)
    have hrest : ∀ c ∈ as, p c = true := fun c hc => h c (by simp [hc])
    simp [List.takeWhile_cons, ha, ih hrest]

theorem basename_pathJoin {f : Name} (h : 47 ∉ f) :
    basename (pathJoin RECORD_DIR f) = f := by
  unfold basename pathJoin
  have hslash : codes "/" = [47] := rfl
  rw [hslash, List.append_assoc, List.reverse_append]
  have hrev : ([47] ++ f).reverse = f.reverse ++ [47] := by simp
  rw [hrev, List.append_assoc]
  rw [takeWhile_append_all ([47] ++ RECORD_DIR.reverse)
    (by intro c hc; simp only [List.mem_reverse] at hc
        simp only [Bool.not_eq_true', beq_eq_false_iff_ne, ne_eq]
        intro hc2; exact h (hc2 ▸ hc))]
  simp [List.takeWhile_cons]

theorem basename_rawPath {n : Nat} (h : n < 1000) :
    basename (pathJoin RECORD_DIR (rawName n)) = rawName n :=
  basename_pathJoin (slash_not_mem_rawName h)

/-! ## Playback lemmas -/

theorem playFold (seq : Traj) (t : SysState) :
    seq.foldl
      (fun st q => { st with writes := st.writes ++ [write_follower q], sleeps := st.sleeps + 1 }) t
      = { t with writes := t.writes ++ seq.map write_follower, sleeps := t.sleeps + seq.length } := by
  induction seq generalizing t with
  | nil => simp
  | cons q qs ih =>
    rw [List.foldl_cons, ih]
    simp [List.append_assoc, Nat.add_comm, Nat.add_left_comm]

theorem playSeq_eq (seq : Traj) (t : SysState) :
    playSeq seq t =
      { t with writes := t.writes ++ seq.map write_follower
               sleeps := t.sleeps + seq.length
               mode := codes "TELEOP"
               status := codes "IDLE"
               logs := t.logs ++ [codes "[REPLAY] DONE"] } := by
  unfold playSeq
  rw [playFold]

/-- The success path of `replay()` once the target is resolved. -/
theorem replayPlay_eq {s : SysState} {p : Name} {T : Traj}
    (hls : s.last_saved = some p) (hT : np_load s.fs p = some T) :
    replayPlay s =
      some (playSeq T
        { s with mode := codes "REPLAY"
                 status := codes "▶ REPLAY"
                 logs := s.logs ++ [replayLogLine p T.length] }) := by
  unfold replayPlay
  rw [hls]
  simp [hT]

/-- Behaviour of `replay()` when not recording and the LastSaved reference is valid. -/
theorem replayCmd_direct {s : SysState} {p : Name} {T : Traj}
    (hrec : s.recording = false) (hls : s.last_saved = some p)
    (hT : np_load s.fs p = some T) :
    replayCmd s =
      some (playSeq T
        { s with mode := codes "REPLAY"
                 status := codes "▶ REPLAY"
                 logs := s.logs ++ [replayLogLine p T.length] }) := by
  have hex : pathExists s.fs p = true := by
    unfold pathExists
    rw [hT]
    rfl
  unfold replayCmd
  rw [if_neg (by simp [hrec])]
  have hnf : (match s.last_saved with
              | none => true
              | some q => !pathExists s.fs q) = false := by
    rw [hls]
    simp [hex]
  simp only [hnf, Bool.false_eq_true, if_false]
  exact replayPlay_eq hls hT

/-- Behaviour of `replay()` when the LastSaved reference needs the fallback and some
    `raw_*` file exists. -/
theorem replayCmd_fallback {s : SysState} {f : Name}
    (hrec : s.recording = false)
    (hfb : match s.last_saved with
           | none => True
           | some p => pathExists s.fs p = false)
    (hf : (rawFilesSorted s.fs).getLast? = some f) :
    replayCmd s = replayPlay { s with last_saved := some f } := by
  unfold replayCmd
  rw [if_neg (by simp [hrec])]
  cases hls : s.last_saved with
  | none => simp [hf]
  | some p =>
    rw [hls] at hfb
    simp only at hfb
    simp [hfb, hf]

/-- Behaviour of `replay()` when the fallback finds nothing: one log line, rest unchanged. -/
theorem replayCmd_noRecordings {s : SysState}
    (hrec : s.recording = false)
    (hfb : match s.last_saved with
           | none => True
           | some p => pathExists s.fs p = false)
    (hf : (rawFilesSorted s.fs).getLast? = none) :
    replayCmd s = some { s with logs := s.logs ++ [codes "[REPLAY] no recordings"] } := by
  unfold replayCmd
  rw [if_neg (by simp [hrec])]
  cases hls : s.last_saved with
  | none => simp [hf]
  | some p =>
    rw [hls] at hfb
    simp only at hfb
    simp [hfb, hf]

/-! ## Directory lemmas for consecutive recordings -/

theorem listdir_fsInsert {fs : Fs} {key : Name} (arr : Traj) (h : key ∉ listdir fs) :
    listdir (fsInsert fs key arr) = key :: listdir fs := by
  unfold fsInsert listdir
  simp only [List.map_cons, List.cons.injEq, true_and]
  rw [List.filter_eq_self.2]
  intro kv hkv
  simp only [Bool.not_eq_true', beq_eq_false_iff_ne, ne_eq]
  intro hc
  exact h (hc ▸ List.mem_map_of_mem (fun kv => kv.1) hkv)

/-- The directory contents after `k` recordings, plus the session-state
    facts the next recording needs. -/
def dirIs (k : Nat) (s : SysState) : Prop :=
  s.recording = false ∧ s.buffer = [] ∧
    listdir s.fs = ((List.range k).reverse).map rawName

theorem next_path_dirIs {k : Nat} (hk : k < 1000) {s : SysState}
    (hdir : listdir s.fs = ((List.range k).reverse).map rawName) :
    next_path (listdir s.fs) = some (pathJoin RECORD_DIR (rawName k)) := by
  rw [hdir]
  cases k with
  | zero =>
    simp only [List.range_zero, List.reverse_nil, List.map_nil]
    decide
  | succ n =>
    have hds : ((List.range (n + 1)).reverse : List Nat) ≠ [] := by
      simp [List.range_succ]
    have hlt : ∀ d ∈ (List.range (n + 1)).reverse, d < 1000 := by
      intro d hd
      simp only [List.mem_reverse, List.mem_range] at hd
      omega
    rw [next_path_rawNames hds hlt]
    have hmax : maxL ((List.range (n + 1)).reverse) = n := by
      apply maxL_eq
      · simp [List.mem_reverse, List.mem_range]
      · intro e he
        simp only [List.mem_reverse, List.mem_range] at he
        omega
    rw [hmax]

theorem record_ne_replay : codes "RECORD" ≠ codes "REPLAY" := by decide

theorem rawName_not_mem {k : Nat} (hk : k < 1000) :
    rawName k ∉ ((List.range k).reverse).map rawName := by
  intro hc
  obtain ⟨i, hi, he⟩ := List.mem_map.1 hc
  simp only [List.mem_reverse, List.mem_range] at hi
  have := rawName_inj (by omega) hk he
  omega

/-- One full successful recording advances the directory from `k` files to
    `k + 1` files, appending `raw_k.npy`. -/
theorem recordOne_step (fr : List Nat) {k : Nat} (hk : k < 1000) {s : SysState}
    (h : dirIs k s) : ∃ s2, recordOne fr s = some s2 ∧ dirIs (k + 1) s2 := by
  obtain ⟨hrec, hbuf, hdir⟩ := h
  have hnp := next_path_dirIs hk hdir
  have hstart : start_record s = some
      { s with mode := codes "RECORD", recording := true, buffer := [],
               save_path := some (pathJoin RECORD_DIR (rawName k)),
               status := codes "● RECORDING",
               logs := s.logs ++ [startLogLine (pathJoin RECORD_DIR (rawName k))] } := by
    unfold start_record
    rw [if_neg (by simp [hrec]), hnp]
    rfl
  refine ⟨{ running := s.running
            mode := codes "TELEOP"
            recording := false
            buffer := []
            save_path := some (pathJoin RECORD_DIR (rawName k))
            last_saved := some (pathJoin RECORD_DIR (rawName k))
            fs := np_save s.fs (pathJoin RECORD_DIR (rawName k))
                    (toInt32Arr [read_leader (busOK fr)])
            status := codes "IDLE"
            logs := (s.logs ++ [startLogLine (pathJoin RECORD_DIR (rawName k))])
                      ++ [savedLogLine 1]
            writes := s.writes ++ [write_follower (read_leader (busOK fr))]
            sleeps := s.sleeps + 1 }, ?_, rfl, rfl, ?_⟩
  · unfold recordOne
    rw [hstart, Option.some_bind]
    rfl
  · show listdir (np_save s.fs (pathJoin RECORD_DIR (rawName k))
        (toInt32Arr [read_leader (busOK fr)])) = _
    unfold np_save
    rw [basename_rawPath hk,
      listdir_fsInsert _ (by rw [hdir]; exact rawName_not_mem hk), hdir,
      List.range_succ]
    simp

theorem recordN_dirIs (fr : List Nat) :
    ∀ N, N ≤ 1000 → ∃ s, recordN fr N = some s ∧ dirIs N s := by
  intro N
  induction N with
  | zero => exact fun _ => ⟨initState, rfl, rfl, rfl, rfl⟩
  | succ n ih =>
    intro hN
    obtain ⟨s, hs, hd⟩ := ih (by omega)
    obtain ⟨s2, hs2, hd2⟩ := recordOne_step fr (by omega) hd
    refine ⟨s2, ?_, hd2⟩
    show (recordN fr n).bind (recordOne fr) = some s2
    rw [hs, Option.some_bind, hs2]

/-! ## Equations for one control-loop tick -/

theorem robot_tick_replay {inp : BusReads} {s : SysState}
    (h : s.mode = codes "REPLAY") :
    robot_tick inp s = { s with sleeps := s.sleeps + 1 } := by
  unfold robot_tick
  rw [if_pos h]

theorem robot_tick_rec {inp : BusReads} {s : SysState}
    (h : ¬ s.mode = codes "REPLAY") (hrec : s.recording = true) :
    robot_tick inp s =
      { s with writes := s.writes ++ [write_follower (read_leader inp)]
               buffer := s.buffer ++ [read_leader inp]
               sleeps := s.sleeps + 1 } := by
  unfold robot_tick
  rw [if_neg h]
  simp [hrec]

theorem robot_tick_norec {inp : BusReads} {s : SysState}
    (h : ¬ s.mode = codes "REPLAY") (hrec : s.recording = false) :
    robot_tick inp s =
      { s with writes := s.writes ++ [write_follower (read_leader inp)]
               sleeps := s.sleeps + 1 } := by
  unfold robot_tick
  rw [if_neg h]
  simp [hrec]

/-! ## The mode/recording invariant at command boundaries -/

theorem teleop_ne_record : codes "TELEOP" ≠ codes "RECORD" := by decide

/-- The session invariant: the `recording` flag tracks `mode == "RECORD"`,
    and between commands the mode is never left at `"REPLAY"`. -/
def modeOK (s : SysState) : Prop :=
  (s.recording = true ↔ s.mode = codes "RECORD") ∧
    (s.mode = codes "TELEOP" ∨ s.mode = codes "RECORD")

theorem modeOK_replayPlay {u t' : SysState} (hrec : u.recording = false)
    (h : replayPlay u = some t') : modeOK t' := by
  unfold replayPlay at h
  split at h
  · cases h
  · split at h
    · cases h
    · injection h with h2
      subst h2
      constructor
      · simp [playSeq_eq, hrec, teleop_ne_record]
      · left
        simp [playSeq_eq]

theorem reachable_modeOK {s : SysState} (h : Reachable s) : modeOK s := by
  induction h with
  | init => exact ⟨by decide, by decide⟩
  | startR hr hstep ih =>
    rename_i u t
    unfold start_record at hstep
    by_cases hrec : u.recording = true
    · rw [if_pos hrec] at hstep
      cases hstep
      exact ih
    · rw [if_neg hrec] at hstep
      cases hnp : next_path (listdir u.fs) with
      | none => rw [hnp] at hstep; cases hstep
      | some p =>
        rw [hnp] at hstep
        simp only [Option.map_some'] at hstep
        cases hstep
        exact ⟨by simp, Or.inr rfl⟩
  | stopR hr hstep ih =>
    rename_i u t
    unfold stop_record at hstep
    by_cases hrec : u.recording = true
    · rw [if_pos hrec] at hstep
      by_cases hbuf : u.buffer.isEmpty = true
      · rw [if_pos hbuf] at hstep
        cases hstep
        exact ⟨by simp [teleop_ne_record], Or.inl rfl⟩
      · rw [if_neg hbuf] at hstep
        cases hsp : u.save_path with
        | none => rw [hsp] at hstep; cases hstep
        | some p =>
          rw [hsp] at hstep
          cases hstep
          exact ⟨by simp [teleop_ne_record], Or.inl rfl⟩
    · rw [if_neg hrec] at hstep
      cases hstep
      exact ih
  | replayR hr hstep ih =>
    rename_i u t
    unfold replayCmd at hstep
    by_cases hrec : u.recording = true
    · rw [if_pos hrec] at hstep
      cases hstep
      exact ih
    · have hrec' : u.recording = false := by simpa using hrec
      rw [if_neg hrec] at hstep
      split at hstep
      · split at hstep
        · cases hstep
          exact ih
        · rename_i f hf
          refine modeOK_replayPlay (u := { u with last_saved := some f }) hrec' ?_
          exact hstep
      · rename_i p hp
        by_cases hex : pathExists u.fs p = true
        · rw [hex] at hstep
          refine modeOK_replayPlay (u := u) hrec' ?_
          exact hstep
        · have hex' : pathExists u.fs p = false := by simpa using hex
          rw [hex'] at hstep
          split at hstep
          · cases hstep
            exact ih
          · rename_i f hf
            refine modeOK_replayPlay (u := { u with last_saved := some f }) hrec' ?_
            exact hstep
  | quitR hr ih => exact ih
  | tickR inp hr ih =>
    rename_i t
    by_cases h : t.mode = codes "REPLAY"
    · rw [robot_tick_replay h]
      exact ih
    · by_cases hrec : t.recording = true
      · rw [robot_tick_rec h hrec]
        exact ih
      · rw [robot_tick_norec h (by simpa using hrec)]
        exact ih

/-! ## Round-trip helpers -/

theorem int32_eq_self {z : Int} (h1 : -2 ^ 31 ≤ z) (h2 : z < 2 ^ 31) : int32 z = z := by
  unfold int32
  omega

theorem map_int32_id {fr : Frame} (h : ∀ v ∈ fr, -2 ^ 31 ≤ v ∧ v < 2 ^ 31) :
    fr.map int32 = fr := by
  induction fr with
  | nil => rfl
  | cons v vs ih =>
    simp only [List.map_cons, List.cons.injEq]
    exact ⟨int32_eq_self (h v (by simp)).1 (h v (by simp)).2,
      ih (fun w hw => h w (by simp [hw]))⟩

theorem toInt32Arr_id {T : Traj} (h : ∀ fr ∈ T, ∀ v ∈ fr, -2 ^ 31 ≤ v ∧ v < 2 ^ 31) :
    toInt32Arr T = T := by
  unfold toInt32Arr
  induction T with
  | nil => rfl
  | cons fr rest ih =>
    simp only [List.map_cons, List.cons.injEq]
    exact ⟨map_int32_id (h fr (by simp)),
      ih (fun g hg => h g (by simp [hg]))⟩

theorem np_load_np_save (fs : Fs) (p : Name) (arr : Traj) :
    np_load (np_save fs p arr) p = some arr := by
  unfold np_load np_save fsInsert
  simp [List.lookup]

/-! ## Concrete states used by witnesses and counterexamples -/

/-- A reachable-shaped state in the middle of a recording session. -/
def recStateEx : SysState :=
  { initState with mode := codes "RECORD", recording := true,
                   save_path := some (pathJoin RECORD_DIR (rawName 0)) }

/-- A state whose LastSaved file stores frames of width 4 (≠ NUM_JOINTS). -/
def wideState : SysState :=
  { initState with
      last_saved := some (pathJoin RECORD_DIR (codes "raw_000.npy")),
      fs := [(codes "raw_000.npy", [[1, 2, 3, 4], [5, 6, 7, 8]])] }

/-- A bus tick in which joint 2's read fails (comm_result 1 ≠ COMM_SUCCESS). -/
def faultyReads : BusReads :=
  [(512, 0, 0), (0, 1, 0), (0, 0, 0), (0, 0, 0), (0, 0, 0), (0, 0, 0)]

/-- A state with one persisted file but no LastSaved reference. -/
def fbState : SysState :=
  { initState with fs := [(codes "raw_000.npy", [[9, 9, 9, 9, 9, 9]])] }

/-! ## C1 -/

/-- C1 counterexample: with the records directory holding only
    `raw_1000.npy` — which does not match the spec's `raw_###` pattern —
    the claim requires the path for index 000, but `next_path` parses the
    slice `[4:7] = "100"` of the lexicographically last name and returns
    the path for index 101. -/
theorem c1_counterexample :
    specRawIdxName (codes "raw_1000.npy") = false ∧
    next_path [codes "raw_1000.npy"] = some (codes "records/raw_101.npy") ∧
    codes "records/raw_101.npy" ≠ codes "records/raw_000.npy" :=
  ⟨by decide, by decide, by decide⟩

/-- C1 (amended): restricted to directories whose entries are exactly
    `raw_DDD.npy` names with three-digit indexes (index ≤ 999),
    `next_path` returns the path for the maximum index plus one, and the
    path for index 000 on an empty directory; consequently, for every
    N ≤ 1000, N consecutive successful recordings starting from an empty
    records directory produce exactly the files `raw_000.npy` …
    `raw_(N-1).npy`, with no gaps and no collisions. -/
theorem c1_next_path_monotonic_naming :
    (∀ ds : List Nat, ds ≠ [] → (∀ d ∈ ds, d < 1000) →
        next_path (ds.map rawName) =
          some (pathJoin RECORD_DIR (rawName (maxL ds + 1)))) ∧
    next_path [] = some (pathJoin RECORD_DIR (rawName 0)) ∧
    (∀ fr : List Nat, ∀ N, N ≤ 1000 →
        (recordN fr N).map (fun s => listdir s.fs) =
          some (((List.range N).reverse).map rawName)) := by
  refine ⟨fun ds hne hlt => next_path_rawNames hne hlt, by decide, ?_⟩
  intro fr N hN
  obtain ⟨s, hs, hd⟩ := recordN_dirIs fr N hN
  rw [hs, Option.map_some']
  exact congrArg some hd.2.2

/-- C1 witness: the amended claim evaluated at the directory
    `{raw_005.npy, raw_002.npy}` and at three recordings from scratch. -/
theorem c1_witness :
    next_path ([5, 2].map rawName) = some (pathJoin RECORD_DIR (rawName 6)) ∧
    (recordN [7] 3).map (fun s => listdir s.fs) =
      some (((List.range 3).reverse).map rawName) :=
  ⟨c1_next_path_monotonic_naming.1 [5, 2] (by decide) (by decide),
   c1_next_path_monotonic_naming.2.2 [7] 3 (by decide)⟩

/-! ## C2 -/

/-- C2: playback of a K-frame trajectory issues exactly K follower writes,
    the frames in order, sleeps one tick period after each write, and ends
    with mode `TELEOP` and status `IDLE`; an empty trajectory issues zero
    writes and zero sleeps. -/
theorem c2_replay_engine (seq : Traj) (s : SysState) :
    (playSeq seq s).writes = s.writes ++ seq.map write_follower ∧
    (playSeq seq s).writes.length = s.writes.length + seq.length ∧
    (playSeq seq s).sleeps = s.sleeps + seq.length ∧
    (playSeq seq s).mode = codes "TELEOP" ∧
    (playSeq seq s).status = codes "IDLE" ∧
    (seq = [] → (playSeq seq s).writes = s.writes ∧ (playSeq seq s).sleeps = s.sleeps) := by
  rw [playSeq_eq]
  refine ⟨rfl, by simp, rfl, rfl, rfl, ?_⟩
  rintro rfl
  simp

/-- C2 witness: the empty-trajectory case at the initial state. -/
theorem c2_witness :
    (playSeq ([] : Traj) initState).writes = initState.writes ∧
    (playSeq ([] : Traj) initState).sleeps = initState.sleeps :=
  (c2_replay_engine [] initState).2.2.2.2.2 rfl

/-! ## C3 -/

/-- C3 counterexample: `stop_record()` on the initial (not recording) state
    returns with the state completely unchanged — zero log lines are
    emitted, not the "exactly one warning/no-op log line" the claim
    requires. -/
theorem c3_counterexample :
    stop_record initState = some initState ∧ initState.logs = [] :=
  ⟨by decide, rfl⟩

/-- C3 (amended): `stop_record()` when not recording leaves the whole state
    (mode, buffer, persisted files, and also the log) unchanged, emitting
    no log line; `replay()` while recording leaves mode, buffer and files
    unchanged and emits exactly one warning log line. -/
theorem c3_noop_safety (s : SysState) :
    (s.recording = false → stop_record s = some s) ∧
    (s.recording = true →
      replayCmd s =
        some { s with logs := s.logs ++ [codes "[WARN] stop record before replay"] }) := by
  constructor
  · intro h
    unfold stop_record
    rw [if_neg (by simp [h])]
  · intro h
    unfold replayCmd
    rw [if_pos h]

/-- C3 witness: both no-ops evaluated at concrete states. -/
theorem c3_witness :
    stop_record initState = some initState ∧
    replayCmd recStateEx =
      some { recStateEx with
               logs := recStateEx.logs ++ [codes "[WARN] stop record before replay"] } :=
  ⟨(c3_noop_safety initState).1 rfl, (c3_noop_safety recStateEx).2 rfl⟩

/-! ## C4 -/

/-- C4: `replay()` with no usable LastSaved reference and no `raw_*` file
    in the records directory emits exactly one log line
    (`[REPLAY] no recordings`) and leaves every other component of the
    state — in particular the mode and the follower write log — unchanged. -/
theorem c4_no_recordings (s : SysState)
    (hrec : s.recording = false)
    (hls : match s.last_saved with
           | none => True
           | some p => pathExists s.fs p = false)
    (hraw : ∀ f ∈ listdir s.fs, startsWithL f (codes "raw_") = false) :
    replayCmd s = some { s with logs := s.logs ++ [codes "[REPLAY] no recordings"] } := by
  apply replayCmd_noRecordings hrec hls
  unfold rawFilesSorted
  have hfil : (listdir s.fs).filter (fun f => startsWithL f (codes "raw_")) = [] := by
    rw [List.filter_eq_nil_iff]
    intro f hf
    simp [hraw f hf]
  rw [hfil]
  rfl

/-- C4 witness: an empty records directory and no prior save. -/
theorem c4_witness :
    replayCmd initState = some { initState with logs := [codes "[REPLAY] no recordings"] } := by
  have h := c4_no_recordings initState rfl trivial (by intro f hf; cases hf)
  simpa using h

/-! ## C5 -/

/-- C5 counterexample: with the LastSaved file storing frames of width 4
    (joint count is 6), the claim requires the replay attempt to fail with
    `CorruptFile` and write no frames; instead `replay()` completes
    normally, issuing both follower writes and returning to `TELEOP`. -/
theorem c5_counterexample :
    (replayCmd wideState).map (fun s2 => (s2.writes.length, s2.mode, s2.status)) =
      some (2, codes "TELEOP", codes "IDLE") ∧ (2 : Nat) ≠ 0 :=
  ⟨by decide, by decide⟩

/-- C5 (amended): no shape check exists.  Replaying a stored trajectory
    whose frames have a width different from the configured joint count
    does not fail: every frame is written, each follower write commanding
    only the first `min NUM_JOINTS (frame length)` joints (`zip`
    truncation), and the records directory, the buffer and the loop flag
    are untouched. -/
theorem c5_shape_mismatch_no_abort (s : SysState) (p : Name) (T : Traj)
    (hrec : s.recording = false) (hls : s.last_saved = some p)
    (hT : np_load s.fs p = some T) :
    (replayCmd s).map (fun s2 => (s2.writes, s2.mode, s2.fs, s2.buffer, s2.running)) =
      some (s.writes ++ T.map write_follower, codes "TELEOP", s.fs, s.buffer, s.running) ∧
    ∀ q ∈ T, (write_follower q).length = min NUM_JOINTS q.length := by
  constructor
  · rw [replayCmd_direct hrec hls hT]
    simp [playSeq_eq]
  · intro q hq
    show (JOINT_IDS.zip q).length = min NUM_JOINTS q.length
    rw [List.length_zip]
    rfl

/-- C5 witness: the amended claim evaluated at the width-4 store. -/
theorem c5_witness :
    (replayCmd wideState).map (fun s2 => (s2.writes, s2.mode, s2.fs, s2.buffer, s2.running)) =
      some (wideState.writes ++ ([[1, 2, 3, 4], [5, 6, 7, 8]] : Traj).map write_follower,
        codes "TELEOP", wideState.fs, wideState.buffer, wideState.running) ∧
    ∀ q ∈ ([[1, 2, 3, 4], [5, 6, 7, 8]] : Traj),
      (write_follower q).length = min NUM_JOINTS q.length :=
  c5_shape_mismatch_no_abort wideState _ _ rfl rfl (by decide)

/-! ## C6 -/

/-- C6: from any reachable command-boundary state, `start_record()` is a
    no-op unless the mode is `TELEOP` (equivalently, unless not recording);
    when it takes effect it allocates the freshly computed `next_path`
    destination with an empty buffer, sets mode `RECORD`, status
    `● RECORDING` (the code's rendering of the RECORDING tag), and logs a
    line naming the destination; and running it twice equals running it
    once (no second allocation). -/
theorem c6_start_record (s : SysState) (hs : Reachable s) :
    (s.mode ≠ codes "TELEOP" → start_record s = some s) ∧
    (s.recording = true → start_record s = some s) ∧
    (s.mode = codes "TELEOP" →
      start_record s = (next_path (listdir s.fs)).map (fun p =>
        { s with mode := codes "RECORD", recording := true, buffer := [],
                 save_path := some p, status := codes "● RECORDING",
                 logs := s.logs ++ [startLogLine p] })) ∧
    (∀ s1, start_record s = some s1 → start_record s1 = some s1) := by
  obtain ⟨hiff, hmode⟩ := reachable_modeOK hs
  refine ⟨?_, ?_, ?_, ?_⟩
  · intro hne
    have hrec : s.recording = true := by
      rcases hmode with h | h
      · exact absurd h hne
      · exact hiff.2 h
    unfold start_record
    rw [if_pos hrec]
  · intro hrec
    unfold start_record
    rw [if_pos hrec]
  · intro hteleop
    have hrec : ¬ s.recording = true := by
      intro h
      have h2 := hiff.1 h
      rw [hteleop] at h2
      exact teleop_ne_record h2
    unfold start_record
    rw [if_neg hrec]
  · intro s1 h1
    unfold start_record at h1 ⊢
    by_cases hrec : s.recording = true
    · rw [if_pos hrec] at h1
      cases h1
      rw [if_pos hrec]
    · rw [if_neg hrec] at h1
      cases hnp : next_path (listdir s.fs) with
      | none => rw [hnp] at h1; cases h1
      | some p =>
        rw [hnp] at h1
        simp only [Option.map_some'] at h1
        cases h1
        rw [if_pos rfl]

/-- C6 witness: the effect branch evaluated at the initial state. -/
theorem c6_witness :
    start_record initState = (next_path (listdir initState.fs)).map (fun p =>
      { initState with
          mode := codes "RECORD", recording := true, buffer := [],
          save_path := some p, status := codes "● RECORDING",
          logs := initState.logs ++ [startLogLine p] }) :=
  (c6_start_record initState Reachable.init).2.2.1 rfl

/-! ## C7 -/

/-- C7: saving a trajectory of int32 frames (as `stop_record` does, via
    `np.array(buffer, dtype=np.int32)` then `np.save`) and loading the same
    path returns the trajectory unchanged, element-wise. -/
theorem c7_save_load_roundtrip (fs : Fs) (p : Name) (T : Traj) (N : Nat)
    (_hlen : 1 ≤ T.length) (_hN : T.length ≤ N)
    (hvals : ∀ fr ∈ T, ∀ v ∈ fr, -2 ^ 31 ≤ v ∧ v < 2 ^ 31) :
    np_load (np_save fs p (toInt32Arr T)) p = some T := by
  rw [np_load_np_save, toInt32Arr_id hvals]

/-- C7 witness: a one-frame trajectory through an actual save/load. -/
theorem c7_witness :
    np_load (np_save [] (pathJoin RECORD_DIR (rawName 0)) (toInt32Arr [[1, 2, 3, 4, 5, 6]]))
        (pathJoin RECORD_DIR (rawName 0)) = some [[1, 2, 3, 4, 5, 6]] :=
  c7_save_load_roundtrip [] _ [[1, 2, 3, 4, 5, 6]] 1 (by decide) (by decide) (by decide)

/-! ## C8 -/

/-- C8 counterexample: on a tick whose bus responses report a failed read
    (comm_result ≠ 0 for joint 2) while recording, the claim requires the
    tick to be skipped (no follower write, no buffer append) and the
    failure logged; instead the tick writes the follower, appends the
    junk frame to the buffer, and logs nothing. -/
theorem c8_counterexample :
    faultyReads.any (fun t => t.2.1 != 0) = true ∧
    (robot_tick faultyReads recStateEx).writes.length = recStateEx.writes.length + 1 ∧
    (robot_tick faultyReads recStateEx).buffer.length = recStateEx.buffer.length + 1 ∧
    (robot_tick faultyReads recStateEx).logs = recStateEx.logs :=
  ⟨by decide, by decide, by decide, by decide⟩

theorem robot_tick_sleeps (inp : BusReads) (s : SysState) :
    (robot_tick inp s).sleeps = s.sleeps + 1 ∧ (robot_tick inp s).running = s.running := by
  by_cases h : s.mode = codes "REPLAY"
  · rw [robot_tick_replay h]
    exact ⟨rfl, rfl⟩
  · by_cases hrec : s.recording = true
    · rw [robot_tick_rec h hrec]
      exact ⟨rfl, rfl⟩
    · rw [robot_tick_norec h (by simpa using hrec)]
      exact ⟨rfl, rfl⟩

theorem robot_loop_runs {inps : List BusReads} : ∀ {s : SysState}, s.running = true →
    (robot_loop inps s).sleeps = s.sleeps + inps.length := by
  induction inps with
  | nil =>
    intro s _
    rfl
  | cons inp rest ih =>
    intro s h
    show (if s.running = true then robot_loop rest (robot_tick inp s) else s).sleeps = _
    rw [if_pos h, ih (by rw [(robot_tick_sleeps inp s).2]; exact h),
      (robot_tick_sleeps inp s).1]
    simp only [List.length_cons]
    omega

/-- C8 (amended): the loop ignores per-transaction fault indications
    entirely — every non-REPLAY tick issues exactly one follower write of
    whatever values the bus returned and, when recording, appends them,
    with nothing logged and the tick never skipped; the loop itself never
    exits early (it consumes every tick while `running` holds, and stops
    only once `running` is false, i.e. on shutdown). -/
theorem c8_loop_ignores_faults (inp : BusReads) (inps : List BusReads) (s : SysState) :
    (s.mode ≠ codes "REPLAY" →
      (robot_tick inp s).writes = s.writes ++ [write_follower (read_leader inp)] ∧
      (robot_tick inp s).buffer =
        s.buffer ++ (if s.recording = true then [read_leader inp] else []) ∧
      (robot_tick inp s).logs = s.logs ∧
      (robot_tick inp s).running = s.running) ∧
    (s.mode = codes "REPLAY" → robot_tick inp s = { s with sleeps := s.sleeps + 1 }) ∧
    (s.running = false → robot_loop inps s = s) ∧
    (s.running = true → (robot_loop inps s).sleeps = s.sleeps + inps.length) := by
  refine ⟨?_, robot_tick_replay, ?_, robot_loop_runs⟩
  · intro hmode
    by_cases hrec : s.recording = true
    · rw [robot_tick_rec hmode hrec, if_pos hrec]
      exact ⟨rfl, rfl, rfl, rfl⟩
    · rw [robot_tick_norec hmode (by simpa using hrec), if_neg hrec]
      exact ⟨rfl, by simp, rfl, rfl⟩
  · intro hrun
    cases inps with
    | nil => rfl
    | cons i rest =>
      show (if s.running = true then robot_loop rest (robot_tick i s) else s) = s
      rw [hrun, if_neg (by decide)]

/-- C8 witness: the amended claim at the faulty tick, and the loop
    consuming a full tick list. -/
theorem c8_witness :
    (robot_tick faultyReads recStateEx).writes =
      recStateEx.writes ++ [write_follower (read_leader faultyReads)] ∧
    (robot_loop [faultyReads] recStateEx).sleeps = recStateEx.sleeps + [faultyReads].length :=
  ⟨((c8_loop_ignores_faults faultyReads [faultyReads] recStateEx).1 (by decide)).1,
   (c8_loop_ignores_faults faultyReads [faultyReads] recStateEx).2.2.2 rfl⟩

/-! ## C9 -/

/-- C9: at every command boundary reachable from the initial state, the
    `recording` flag holds exactly when the mode is `"RECORD"` — so the
    `if recording` guard in `replay()` is equivalent to a guard on
    `mode == RECORD`. -/
theorem c9_recording_iff_record_mode {s : SysState} (h : Reachable s) :
    s.recording = true ↔ s.mode = codes "RECORD" :=
  (reachable_modeOK h).1

/-- C9 witness: the invariant at the initial state. -/
theorem c9_witness :
    initState.recording = true ↔ initState.mode = codes "RECORD" :=
  c9_recording_iff_record_mode Reachable.init

/-! ## C10 -/

/-- C10: when `replay()` resolves its target through the fallback (no
    LastSaved reference, or a dangling one) and a `raw_*` file exists, it
    permanently overwrites `last_saved` with the lexicographically last
    such file, plays it, and a second `replay()` plays that same file
    again purely from the overwritten reference. -/
theorem c10_fallback_overwrites_last_saved (s : SysState) (f : Name) (T : Traj)
    (hrec : s.recording = false)
    (hls : match s.last_saved with
           | none => True
           | some p => pathExists s.fs p = false)
    (hf : (rawFilesSorted s.fs).getLast? = some f)
    (hT : np_load s.fs f = some T) :
    (replayCmd s).map (fun s2 => (s2.last_saved, s2.writes)) =
      some (some f, s.writes ++ T.map write_follower) ∧
    ((replayCmd s).bind replayCmd).map (fun s3 => (s3.last_saved, s3.writes)) =
      some (some f, s.writes ++ T.map write_follower ++ T.map write_follower) := by
  have h1 : replayCmd s = replayPlay { s with last_saved := some f } :=
    replayCmd_fallback hrec hls hf
  have h2 := replayPlay_eq (s := { s with last_saved := some f }) rfl hT
  constructor
  · rw [h1, h2]
    simp [playSeq_eq]
  · rw [h1, h2, Option.some_bind]
    have hrec2 : (playSeq T { { s with last_saved := some f } with
        mode := codes "REPLAY", status := codes "▶ REPLAY",
        logs := s.logs ++ [replayLogLine f T.length] }).recording = false := by
      simp [playSeq_eq, hrec]
    have hls2 : (playSeq T { { s with last_saved := some f } with
        mode := codes "REPLAY", status := codes "▶ REPLAY",
        logs := s.logs ++ [replayLogLine f T.length] }).last_saved = some f := by
      simp [playSeq_eq]
    have hT2 : np_load (playSeq T { { s with last_saved := some f } with
        mode := codes "REPLAY", status := codes "▶ REPLAY",
        logs := s.logs ++ [replayLogLine f T.length] }).fs f = some T := by
      rw [playSeq_eq]
      exact hT
    rw [replayCmd_direct hrec2 hls2 hT2]
    simp [playSeq_eq, List.append_assoc]

/-- C10 witness: a directory with `raw_000.npy` and no LastSaved
    reference; both the first and the second replay target it. -/
theorem c10_witness :
    (replayCmd fbState).map (fun s2 => (s2.last_saved, s2.writes)) =
      some (some (pathJoin RECORD_DIR (codes "raw_000.npy")),
        fbState.writes ++ ([[9, 9, 9, 9, 9, 9]] : Traj).map write_follower) ∧
    ((replayCmd fbState).bind replayCmd).map (fun s3 => (s3.last_saved, s3.writes)) =
      some (some (pathJoin RECORD_DIR (codes "raw_000.npy")),
        fbState.writes ++ ([[9, 9, 9, 9, 9, 9]] : Traj).map write_follower
          ++ ([[9, 9, 9, 9, 9, 9]] : Traj).map write_follower) :=
  c10_fallback_overwrites_last_saved fbState _ _ rfl trivial (by decide) (by decide)
